import Mathlib

/-!
Verification of `convert_midnight_to_noctisium.py`.

Shallow embedding of the conversion pipeline: raw CSV rows are
`List (List String)`, the Python dict `col_map` is an association list with
Python-dict insert semantics (update in place, append fresh keys), the
per-row JSON `data` dictionary is an ordered association list of keys to a
`Value` (text / boolean / null), and file output is the list of output rows
produced before the final CSV write.  Python exceptions that can escape the
per-row loop (the unguarded `row[col_map.get('Date', 1)]` access) are
modelled with `Except`; a run that raises writes no output file, matching
the source where the output file is opened only after the loop.
-/

/-- ASCII whitespace recognised by Python `str.strip()`. -/
def pyWhitespace (c : Char) : Bool :=
  c = ' ' || c = '\t' || c = '\n' || c = '\r' || c = Char.ofNat 11 || c = Char.ofNat 12

/-- Python `str.strip()` on the character list: drop whitespace from both ends. -/
def stripList (l : List Char) : List Char :=
  ((l.dropWhile pyWhitespace).reverse.dropWhile pyWhitespace).reverse

/-- Python `s.split(',')` on the character list. -/
def splitOnComma : List Char → List (List Char)
  | [] => [[]]
  | c :: cs =>
    let r := splitOnComma cs
    if c = ',' then [] :: r else (c :: r.headD []) :: r.tail

/-- Lowercased month abbreviations, as matched (case-insensitively) by
`datetime.strptime` with `%b` in the C locale. -/
def monthNames : List String :=
  ["jan", "feb", "mar", "apr", "may", "jun", "jul", "aug", "sep", "oct", "nov", "dec"]

def monthIdxFrom : Nat → List String → String → Option Nat
  | _, [], _ => none
  | n, m :: ms, s => if m = s then some n else monthIdxFrom (n + 1) ms s

/-- Month number (1-12) of a lowercased three-letter abbreviation. -/
def monthIdx (s : String) : Option Nat := monthIdxFrom 1 monthNames s

/-- Day-of-month token as matched by the `%d` directive of `strptime`:
one digit 1-9, or two digits with value 01-31. -/
def parseDayToken : List Char → Option Nat
  | [c] => if c.isDigit && c ≠ '0' then some (c.toNat - 48) else none
  | [c1, c2] =>
    if c1.isDigit && c2.isDigit then
      let v := (c1.toNat - 48) * 10 + (c2.toNat - 48)
      if 1 ≤ v && v ≤ 31 then some v else none
    else none
  | _ => none

/-- `datetime.strptime(d ++ " 2025", "%b %d %Y")` on an already-stripped `d`:
a three-letter month abbreviation (case-insensitive), at least one whitespace
character, then a day token reaching the end of `d`. -/
def parseMonthDay (d : List Char) : Option (Nat × Nat) :=
  match d with
  | c1 :: c2 :: c3 :: rest =>
    match monthIdx (String.mk ([c1, c2, c3].map Char.toLower)) with
    | none => none
    | some m =>
      match rest with
      | [] => none
      | c :: _ =>
        if pyWhitespace c then
          match parseDayToken (rest.dropWhile pyWhitespace) with
          | some day => some (m, day)
          | none => none
        else none
  | _ => none

/-- Days in each month of the (non-leap) hardcoded year 2025. -/
def monthLen (m : Nat) : Nat :=
  [31, 28, 31, 30, 31, 30, 31, 31, 30, 31, 30, 31].getD (m - 1) 0

/-- Zero-pad a number to two digits, as `strftime` does for `%m`/`%d`. -/
def pad2 (n : Nat) : String := if n < 10 then "0" ++ toString n else toString n

/-- Format a month/day as `"2025-MM-DD"` (`strftime("%Y-%m-%d")`). -/
def fmtDate (m day : Nat) : String := "2025-" ++ pad2 m ++ "-" ++ pad2 day

/-- `parse_date` from the source: blank input gives `none`; otherwise strip,
take `split(',')[1]` when a comma is present and strip again, then parse as
`"%b %d 2025"` and reformat as `"YYYY-MM-DD"`; any parse failure gives `none`. -/
def parse_date (s : String) : Option String :=
  if stripList s.toList = [] then none
  else
    let t := stripList s.toList
    let d := if t.contains ',' then stripList ((splitOnComma t).getD 1 []) else t
    match parseMonthDay d with
    | some (m, day) => if day ≤ monthLen m then some (fmtDate m day) else none
    | none => none

/-- The whitespace-normalised form `parse_time` works on:
`time_str.strip().replace(' ', '')`. -/
def timeCanon (s : String) : List Char :=
  (stripList s.toList).filter (fun c => c ≠ ' ')

/-- The hour-padding step of `parse_time`: if the text contains a colon and
the segment before the first colon is a single character, prepend `'0'`. -/
def padHourL (t : List Char) : List Char :=
  if t.contains ':' then
    if (t.takeWhile (fun c => c ≠ ':')).length = 1 then '0' :: t else t
  else t

/-- `parse_time` from the source: blank input gives `none`; otherwise strip,
remove every space character, and zero-pad a single-character hour segment.
No other validation is performed. -/
def parse_time (s : String) : Option String :=
  if stripList s.toList = [] then none
  else some (padHourL (timeCanon s)).asString

/-- JSON-able values stored in the per-row `data` dictionary. -/
inductive Value
  | vstr (s : String)
  | vbool (b : Bool)
  | vnull
deriving DecidableEq

/-- Python dict lookup on the association-list model. -/
def dictGet (m : List (String × Nat)) (k : String) : Option Nat :=
  (m.find? (fun p => p.1 == k)).map Prod.snd

/-- Python dict assignment `m[k] = v`: update an existing key in place,
otherwise append at the end. -/
def dictInsert (m : List (String × Nat)) (k : String) (v : Nat) : List (String × Nat) :=
  if m.any (fun p => p.1 == k) then
    m.map (fun p => if p.1 == k then (k, v) else p)
  else m ++ [(k, v)]

/-- The `col_map` building loop: `for i, header in enumerate(headers): if
header: col_map[header] = i`, starting at position `n` with accumulator `m`. -/
def colMapFrom (n : Nat) (hs : List String) (m : List (String × Nat)) : List (String × Nat) :=
  match hs with
  | [] => m
  | h :: t => colMapFrom (n + 1) t (if h ≠ "" then dictInsert m h n else m)

/-- `col_map` built from the detected header row. -/
def buildColMap (headers : List String) : List (String × Nat) :=
  colMapFrom 0 headers []

/-- Position of the last occurrence of `k` in `hs` (offset by `n`), carrying
the best result found so far. -/
def lastIdxFrom (n : Nat) (hs : List String) (acc : Option Nat) (k : String) : Option Nat :=
  match hs with
  | [] => acc
  | h :: t => lastIdxFrom (n + 1) t (if h = k then some n else acc) k

/-- Position of the last occurrence of `k` in `hs`. -/
def lastIdxOf (hs : List String) (k : String) : Option Nat :=
  lastIdxFrom 0 hs none k

/-- The header-row predicate of the detection loop:
`len(row) > 2 and "Date" in row and "Wake Time" in row`. -/
def isHeaderRow (row : List String) : Bool :=
  decide (2 < row.length) && row.contains "Date" && row.contains "Wake Time"

/-- The header-detection loop starting at row index `n`. -/
def findHeaderIdxFrom (n : Nat) : List (List String) → Option Nat
  | [] => none
  | row :: rest => if isHeaderRow row then some n else findHeaderIdxFrom (n + 1) rest

/-- Index of the first header row, scanning top-down. -/
def findHeaderIdx (rows : List (List String)) : Option Nat :=
  findHeaderIdxFrom 0 rows

/-- Plain text fields: `if label in col_map and len(row) > c and row[c]:
str(row[c]) else None`. -/
def getPlain (cm : List (String × Nat)) (row : List String) (label : String) : Value :=
  match dictGet cm label with
  | none => Value.vnull
  | some idx =>
    if h : idx < row.length then
      if row[idx] = "" then Value.vnull else Value.vstr row[idx]
    else Value.vnull

/-- Boolean fields (`Cold Shower`, `No Dopamine`): a present non-empty cell
becomes `cell == '1'`; anything else becomes null. -/
def getBool (cm : List (String × Nat)) (row : List String) (label : String) : Value :=
  match dictGet cm label with
  | none => Value.vnull
  | some idx =>
    if h : idx < row.length then
      if row[idx] = "" then Value.vnull else Value.vbool (row[idx] == "1")
    else Value.vnull

/-- Time fields (`Sleep Time`, `Wake Time`): a present non-empty cell is run
through `parse_time`; a falsy result becomes null. -/
def getTime (cm : List (String × Nat)) (row : List String) (label : String) : Value :=
  match dictGet cm label with
  | none => Value.vnull
  | some idx =>
    if h : idx < row.length then
      if row[idx] = "" then Value.vnull
      else
        match parse_time row[idx] with
        | some t => if t = "" then Value.vnull else Value.vstr t
        | none => Value.vnull
    else Value.vnull

/-- Three-way fields (`Reading`, `Training`): empty cell gives empty text,
non-empty cell is copied, missing column or short row gives null. -/
def getThreeWay (cm : List (String × Nat)) (row : List String) (label : String) : Value :=
  match dictGet cm label with
  | none => Value.vnull
  | some idx =>
    if h : idx < row.length then
      if row[idx] = "" then Value.vstr ""
      else if row[idx] ≠ "" then Value.vstr row[idx]
      else Value.vnull
    else Value.vnull

/-- The `data` dictionary built for one accepted row, in the exact insertion
order of the source. -/
def buildData (cm : List (String × Nat)) (row : List String) : List (String × Value) :=
  [ ("hrv", getPlain cm row "HRV"),
    ("calories", getPlain cm row "Calories"),
    ("deepWork", getPlain cm row "Deep Work (hrs)"),
    ("recovery", getPlain cm row "Recovery"),
    ("sleepTime", getTime cm row "Sleep Time"),
    ("coldShower", getBool cm row "Cold Shower"),
    ("noDopamine", getBool cm row "No Dopamine"),
    ("sleepHours", getPlain cm row "Sleep (hrs)"),
    ("wakingTime", getTime cm row "Wake Time"),
    ("dailyWeight", getPlain cm row "Weight"),
    ("waterIntake", getPlain cm row "Water"),
    ("readingHours", getThreeWay cm row "Reading"),
    ("proteinIntake", getPlain cm row "Protein"),
    ("jiuJitsuSessions", getThreeWay cm row "Training"),
    ("weightliftingSessions", Value.vstr "") ]

/-- Key lookup in an ordered `data` record. -/
def recGet (rec : List (String × Value)) (k : String) : Option Value :=
  (rec.find? (fun p => p.1 == k)).map Prod.snd

/-- The `has_data` loop: some cell from position 2 onward is non-empty and
not whitespace-only. -/
def hasData (row : List String) : Bool :=
  (row.drop 2).any (fun c => decide (c ≠ "") && decide (stripList c.toList ≠ []))

/-- The fixed `user_id` constant of the source. -/
def USER_ID : String := "0b3c6a14-8d1e-4ca4-b44f-8b89980bc61b"

/-- One output row: `user_id`, ISO date, and the `data` record that the
source serialises to compact JSON preserving insertion order. -/
structure OutRow where
  user_id : String
  date : String
  data : List (String × Value)
deriving DecidableEq

/-- Processing of one row after the header: skip conditions, the unguarded
date-cell access (modelled with `Except`, a Python `IndexError`), date
parsing, the `has_data` check, and record construction. -/
def processRow (cm : List (String × Nat)) (row : List String) :
    Except String (Option (String × List (String × Value))) :=
  if row.length < 2 ∨ row.getD 1 "" = "" ∨ row.getD 0 "" = "BREAK"
      ∨ row.getD 0 "" = "NIGHTMARE" ∨ row.getD 1 "" = "AVG OR SUM" then
    Except.ok none
  else
    let dIdx := (dictGet cm "Date").getD 1
    if dIdx < row.length then
      match parse_date (row.getD dIdx "") with
      | none => Except.ok none
      | some date =>
        if hasData row then Except.ok (some (date, buildData cm row))
        else Except.ok none
    else Except.error "IndexError"

/-- The per-row loop over all rows after the header. -/
def processRows (cm : List (String × Nat)) : List (List String) → Except String (List OutRow)
  | [] => Except.ok []
  | row :: rest =>
    match processRow cm row with
    | Except.error e => Except.error e
    | Except.ok none => processRows cm rest
    | Except.ok (some (date, rec)) =>
      match processRows cm rest with
      | Except.error e => Except.error e
      | Except.ok out => Except.ok ({ user_id := USER_ID, date := date, data := rec } :: out)

/-- The whole conversion: header detection, column-map construction, and the
row loop.  `Except.error` is a run that writes no output file (`return` after
the diagnostic, or an uncaught exception). -/
def convert (rows : List (List String)) : Except String (List OutRow) :=
  match findHeaderIdx rows with
  | none => Except.error "Could not find header row"
  | some hi => processRows (buildColMap (rows.getD hi [])) (rows.drop (hi + 1))

/-- The boolean-field contract, written from the specification's words:
missing column or empty (or absent) cell gives null; a present non-empty
cell gives `true` exactly when it equals the literal `"1"`. -/
def boolFieldSpec (colIdx : Option Nat) (row : List String) : Value :=
  match colIdx with
  | none => Value.vnull
  | some idx =>
    match row[idx]? with
    | none => Value.vnull
    | some cell => if cell = "" then Value.vnull else Value.vbool (cell == "1")

/-- The date normalizer as claim C3 states it: when a comma is present,
discard everything up to and including the FIRST comma (keeping all the rest
of the text), trim, and parse the remainder as month/day with year 2025. -/
def parse_date_claim (s : String) : Option String :=
  if stripList s.toList = [] then none
  else
    let t := stripList s.toList
    let d := if t.contains ',' then stripList ((t.dropWhile (fun c => c ≠ ',')).drop 1) else t
    match parseMonthDay d with
    | some (m, day) => if day ≤ monthLen m then some (fmtDate m day) else none
    | none => none

/-- The date normalizer as amended: when a comma is present, the text taken
is the segment strictly between the first comma and the following comma (or
the end of the text), i.e. `split(',')[1]`, then trimmed and parsed as
month/day with the fixed year 2025, zero-padded into `"YYYY-MM-DD"`;
any parse failure yields `none`. -/
def parse_date_amendedSpec (s : String) : Option String :=
  if stripList s.toList = [] then none
  else
    let t := stripList s.toList
    let d := if t.contains ',' then
        stripList (((t.dropWhile (fun c => c ≠ ',')).drop 1).takeWhile (fun c => c ≠ ','))
      else t
    match parseMonthDay d with
    | some (m, day) => if day ≤ monthLen m then some (fmtDate m day) else none
    | none => none

/-- The key sequence the source actually writes into every `data` JSON
object, in insertion order: 15 keys, with `jiuJitsuSessions` between
`proteinIntake` and `weightliftingSessions`. -/
def KEYS : List String :=
  ["hrv", "calories", "deepWork", "recovery", "sleepTime", "coldShower", "noDopamine",
   "sleepHours", "wakingTime", "dailyWeight", "waterIntake", "readingHours",
   "proteinIntake", "jiuJitsuSessions", "weightliftingSessions"]

/-- The key list that claim C1 asserts (it announces 13 keys but lists these
14, omitting `jiuJitsuSessions`). -/
def C1claimKeys : List String :=
  ["hrv", "calories", "deepWork", "recovery", "sleepTime", "coldShower", "noDopamine",
   "sleepHours", "wakingTime", "dailyWeight", "waterIntake", "readingHours",
   "proteinIntake", "weightliftingSessions"]

/-- Concrete input table used to exercise claim C1. -/
def C1exRows : List (List String) :=
  [["Date", "Wake Time", "HRV"], ["Mon, Apr 21", "6:48", "72"]]

/-- The single output row the conversion produces on `C1exRows`. -/
def C1exOut : OutRow :=
  { user_id := USER_ID, date := "2025-04-21",
    data := [("hrv", Value.vstr "72"), ("calories", Value.vnull),
      ("deepWork", Value.vnull), ("recovery", Value.vnull), ("sleepTime", Value.vnull),
      ("coldShower", Value.vnull), ("noDopamine", Value.vnull), ("sleepHours", Value.vnull),
      ("wakingTime", Value.vstr "06:48"), ("dailyWeight", Value.vnull),
      ("waterIntake", Value.vnull), ("readingHours", Value.vnull),
      ("proteinIntake", Value.vnull), ("jiuJitsuSessions", Value.vnull),
      ("weightliftingSessions", Value.vstr "")] }

theorem getBool_eq_boolFieldSpec (cm : List (String × Nat)) (row : List String)
    (label : String) : getBool cm row label = boolFieldSpec (dictGet cm label) row := by
  unfold getBool boolFieldSpec
  cases dictGet cm label with
  | none => rfl
  | some idx =>
    by_cases h : idx < row.length
    · simp [h, List.getElem?_eq_getElem h]
    · simp [h, List.getElem?_eq_none (Nat.le_of_not_lt h)]

/-- Claim C5: for the boolean fields `coldShower` and `noDopamine` of every
built record, a missing source column or an empty (or absent) cell yields
null, and a present non-empty cell yields `true` exactly when the cell text
equals the literal `"1"` (so any other non-empty value, including `"0"`,
yields `false`), as captured by `boolFieldSpec`. -/
theorem claim_C5 : ∀ (cm : List (String × Nat)) (row : List String),
    recGet (buildData cm row) "coldShower"
      = some (boolFieldSpec (dictGet cm "Cold Shower") row)
    ∧ recGet (buildData cm row) "noDopamine"
      = some (boolFieldSpec (dictGet cm "No Dopamine") row) := by
  intro cm row
  constructor
  · show some (getBool cm row "Cold Shower") = _
    rw [getBool_eq_boolFieldSpec]
  · show some (getBool cm row "No Dopamine") = _
    rw [getBool_eq_boolFieldSpec]

/-- Claim C6: for the `readingHours` (source column `Reading`) and
`jiuJitsuSessions` (source column `Training`) fields of every built record:
if the column exists and the cell is present, an empty cell gives empty text
and a non-empty cell is copied verbatim; if the column does not exist the
field is null. -/
theorem claim_C6 : ∀ (cm : List (String × Nat)) (row : List String),
    (∀ idx, dictGet cm "Reading" = some idx → ∀ cell, row[idx]? = some cell →
      recGet (buildData cm row) "readingHours"
        = some (if cell = "" then Value.vstr "" else Value.vstr cell))
    ∧ (dictGet cm "Reading" = none →
      recGet (buildData cm row) "readingHours" = some Value.vnull)
    ∧ (∀ idx, dictGet cm "Training" = some idx → ∀ cell, row[idx]? = some cell →
      recGet (buildData cm row) "jiuJitsuSessions"
        = some (if cell = "" then Value.vstr "" else Value.vstr cell))
    ∧ (dictGet cm "Training" = none →
      recGet (buildData cm row) "jiuJitsuSessions" = some Value.vnull) := by
  intro cm row
  have hread : recGet (buildData cm row) "readingHours"
      = some (getThreeWay cm row "Reading") := rfl
  have htrain : recGet (buildData cm row) "jiuJitsuSessions"
      = some (getThreeWay cm row "Training") := rfl
  refine ⟨fun idx hidx cell hcell => ?_, fun hnone => ?_,
    fun idx hidx cell hcell => ?_, fun hnone => ?_⟩
  · rw [hread]
    have hlt : idx < row.length := by
      by_contra hge
      rw [List.getElem?_eq_none (Nat.le_of_not_lt hge)] at hcell
      exact Option.noConfusion hcell
    have hcell' : row[idx] = cell := by
      rw [List.getElem?_eq_getElem hlt] at hcell
      exact Option.some.inj hcell
    unfold getThreeWay
    rw [hidx]
    by_cases he : cell = "" <;> simp [hlt, hcell', he]
  · rw [hread]
    unfold getThreeWay
    rw [hnone]
  · rw [htrain]
    have hlt : idx < row.length := by
      by_contra hge
      rw [List.getElem?_eq_none (Nat.le_of_not_lt hge)] at hcell
      exact Option.noConfusion hcell
    have hcell' : row[idx] = cell := by
      rw [List.getElem?_eq_getElem hlt] at hcell
      exact Option.some.inj hcell
    unfold getThreeWay
    rw [hidx]
    by_cases he : cell = "" <;> simp [hlt, hcell', he]
  · rw [htrain]
    unfold getThreeWay
    rw [hnone]

/-- Witness for C6 at concrete inputs: with `Reading` at position 0 and
`Training` at position 1 of the row `["", "2"]`, `readingHours` is empty
text and `jiuJitsuSessions` copies `"2"`. -/
theorem claim_C6_witness :
    recGet (buildData [("Reading", 0), ("Training", 1)] ["", "2"]) "readingHours"
      = some (Value.vstr "")
    ∧ recGet (buildData [("Reading", 0), ("Training", 1)] ["", "2"]) "jiuJitsuSessions"
      = some (Value.vstr "2") := by
  have h := claim_C6 [("Reading", 0), ("Training", 1)] ["", "2"]
  refine ⟨?_, ?_⟩
  · have := h.1 0 (by decide) "" (by decide)
    simpa using this
  · have := h.2.2.1 1 (by decide) "2" (by decide)
    simpa using this

/-- Claim C10: for every canonical field backed by a source column, if the
row has fewer cells than needed to reach that column's position, extraction
resolves to null (the source guards every access with a length check, so the
extractors are total and never index out of range). -/
theorem claim_C10 : ∀ (cm : List (String × Nat)) (row : List String) (label : String)
    (idx : Nat), dictGet cm label = some idx → row.length ≤ idx →
    getPlain cm row label = Value.vnull
    ∧ getBool cm row label = Value.vnull
    ∧ getTime cm row label = Value.vnull
    ∧ getThreeWay cm row label = Value.vnull := by
  intro cm row label idx hidx hlen
  have hlt : ¬ idx < row.length := Nat.not_lt.mpr hlen
  refine ⟨?_, ?_, ?_, ?_⟩
  · unfold getPlain; rw [hidx]; simp [hlt]
  · unfold getBool; rw [hidx]; simp [hlt]
  · unfold getTime; rw [hidx]; simp [hlt]
  · unfold getThreeWay; rw [hidx]; simp [hlt]

/-- Witness for C10 at a concrete input: the `HRV` column points at
position 5 but the row has only 2 cells, so every extractor yields null. -/
theorem claim_C10_witness :
    getPlain [("HRV", 5)] ["a", "b"] "HRV" = Value.vnull
    ∧ getBool [("HRV", 5)] ["a", "b"] "HRV" = Value.vnull
    ∧ getTime [("HRV", 5)] ["a", "b"] "HRV" = Value.vnull
    ∧ getThreeWay [("HRV", 5)] ["a", "b"] "HRV" = Value.vnull :=
  claim_C10 [("HRV", 5)] ["a", "b"] "HRV" 5 (by decide) (by decide)

theorem splitOnComma_ne_nil : ∀ cs : List Char, splitOnComma cs ≠ []
  | [] => by simp [splitOnComma]
  | c :: cs => by
    unfold splitOnComma
    by_cases h : c = ',' <;> simp [h]

theorem splitOnComma_headD : ∀ cs : List Char,
    (splitOnComma cs).headD [] = cs.takeWhile (fun c => c ≠ ',')
  | [] => rfl
  | c :: cs => by
    unfold splitOnComma
    by_cases h : c = ','
    · simp [h]
    · simp only [if_neg h, List.headD_cons]
      rw [splitOnComma_headD cs]
      simp [h]

theorem splitOnComma_getD_one : ∀ cs : List Char, ',' ∈ cs →
    (splitOnComma cs).getD 1 []
      = ((cs.dropWhile (fun c => c ≠ ',')).drop 1).takeWhile (fun c => c ≠ ',')
  | [], h => absurd h (List.not_mem_nil ',')
  | c :: cs, h => by
    unfold splitOnComma
    by_cases hc : c = ','
    · subst hc
      obtain ⟨s, ss, hr⟩ : ∃ s ss, splitOnComma cs = s :: ss := by
        cases hq : splitOnComma cs with
        | nil => exact absurd hq (splitOnComma_ne_nil cs)
        | cons s ss => exact ⟨s, ss, rfl⟩
      have hhead := splitOnComma_headD cs
      rw [hr] at hhead ⊢
      simpa using hhead
    · have hmem : ',' ∈ cs := by
        cases h with
        | head => exact absurd rfl hc
        | tail _ h' => exact h'
      obtain ⟨s, ss, hr⟩ : ∃ s ss, splitOnComma cs = s :: ss := by
        cases hq : splitOnComma cs with
        | nil => exact absurd hq (splitOnComma_ne_nil cs)
        | cons s ss => exact ⟨s, ss, rfl⟩
      have hih := splitOnComma_getD_one cs hmem
      rw [hr] at hih ⊢
      simpa [hc] using hih

/-- Claim C3, counterexample: on `"Mon, Apr 21, x"` (an input with two
commas) the source `parse_date` keeps only the segment between the commas
and succeeds with `"2025-04-21"`, while the behaviour the claim describes —
keep everything after the first comma — fails to parse and yields `none`. -/
theorem claim_C3_counterexample :
    parse_date "Mon, Apr 21, x" = some "2025-04-21"
    ∧ parse_date_claim "Mon, Apr 21, x" = none
    ∧ parse_date "Mon, Apr 21, x" ≠ parse_date_claim "Mon, Apr 21, x" := by
  refine ⟨by decide, by decide, by decide⟩

/-- Claim C3 as amended: `parse_date` agrees, on every input, with the
specification that keeps the segment strictly between the first comma and
the next comma (or the end), trims it, parses it as abbreviated-month/day
with the fixed year 2025, returns `"2025-MM-DD"` zero-padded, and yields
`none` on empty input or any parse failure. -/
theorem claim_C3_amended : ∀ s : String, parse_date s = parse_date_amendedSpec s := by
  intro s
  simp only [parse_date, parse_date_amendedSpec]
  by_cases hc : (stripList s.toList).contains ',' = true
  · have hmem : ',' ∈ stripList s.toList := by simpa using hc
    rw [splitOnComma_getD_one _ hmem]
  · rw [if_neg hc, if_neg hc]

theorem head?_dropWhile_false (p : Char → Bool) :
    ∀ (l : List Char) (c : Char), (l.dropWhile p).head? = some c → p c = false
  | [], c, h => by simp [List.dropWhile] at h
  | a :: t, c, h => by
    rw [List.dropWhile_cons] at h
    by_cases hp : p a = true
    · rw [if_pos hp] at h
      exact head?_dropWhile_false p t c h
    · rw [if_neg hp] at h
      have ha : a = c := by simpa using h
      subst ha
      simpa using hp

theorem dropWhile_eq_self_of_head (p : Char → Bool) (l : List Char)
    (h : ∀ c, l.head? = some c → p c = false) : l.dropWhile p = l := by
  cases l with
  | nil => rfl
  | cons a t =>
    have := h a rfl
    rw [List.dropWhile_cons, if_neg (by simp [this])]

theorem getLast?_cons_of_ne_nil (a : Char) (t : List Char) (h : t ≠ []) :
    (a :: t).getLast? = t.getLast? := by
  cases t with
  | nil => exact absurd rfl h
  | cons b u => simp [List.getLast?_cons]

theorem getLast?_dropWhile_of_ne_nil (p : Char → Bool) :
    ∀ l : List Char, l.dropWhile p ≠ [] → (l.dropWhile p).getLast? = l.getLast?
  | [], h => absurd rfl h
  | a :: t, h => by
    by_cases hp : p a = true
    · rw [List.dropWhile_cons, if_pos hp] at h ⊢
      have ht : t ≠ [] := by
        intro he
        rw [he] at h
        exact h rfl
      rw [getLast?_dropWhile_of_ne_nil p t h, getLast?_cons_of_ne_nil a t ht]
    · rw [List.dropWhile_cons, if_neg hp]

theorem mem_of_getLast?_eq (l : List Char) (a : Char) (h : l.getLast? = some a) : a ∈ l := by
  rw [← List.head?_reverse] at h
  have : a ∈ l.reverse := by
    cases hr : l.reverse with
    | nil => rw [hr] at h; simp at h
    | cons b t =>
      rw [hr] at h
      simp at h
      subst h
      exact List.mem_cons_self b t
  simpa using this

theorem stripList_head?_false (l : List Char) (c : Char)
    (h : (stripList l).head? = some c) : pyWhitespace c = false := by
  unfold stripList at h
  rw [List.head?_reverse] at h
  have hne : (l.dropWhile pyWhitespace).reverse.dropWhile pyWhitespace ≠ [] := by
    intro he
    rw [he] at h
    simp at h
  rw [getLast?_dropWhile_of_ne_nil pyWhitespace _ hne, List.getLast?_reverse] at h
  exact head?_dropWhile_false pyWhitespace l c h

theorem stripList_getLast?_false (l : List Char) (c : Char)
    (h : (stripList l).getLast? = some c) : pyWhitespace c = false := by
  unfold stripList at h
  rw [List.getLast?_reverse] at h
  exact head?_dropWhile_false pyWhitespace _ c h

theorem stripList_eq_self (l : List Char)
    (h1 : ∀ c, l.head? = some c → pyWhitespace c = false)
    (h2 : ∀ c, l.getLast? = some c → pyWhitespace c = false) : stripList l = l := by
  unfold stripList
  rw [dropWhile_eq_self_of_head pyWhitespace l h1]
  rw [dropWhile_eq_self_of_head pyWhitespace l.reverse
    (fun c hc => h2 c (by rwa [List.head?_reverse] at hc))]
  exact List.reverse_reverse l

theorem timeCanon_no_space (s : String) : ∀ c ∈ timeCanon s, c ≠ ' ' := by
  intro c hc
  have := List.of_mem_filter hc
  simpa using this

theorem space_is_pyWhitespace (c : Char) (h : pyWhitespace c = false) : c ≠ ' ' := by
  intro he
  rw [he] at h
  simp [pyWhitespace] at h

theorem timeCanon_head?_false (s : String) (c : Char)
    (h : (timeCanon s).head? = some c) : pyWhitespace c = false := by
  unfold timeCanon at h
  cases hsl : stripList s.toList with
  | nil => rw [hsl] at h; simp at h
  | cons a t =>
    have ha : pyWhitespace a = false := stripList_head?_false s.toList a (by rw [hsl]; rfl)
    rw [hsl, List.filter_cons_of_pos (by simpa using space_is_pyWhitespace a ha)] at h
    have hac : a = c := by simpa using h
    subst hac
    exact ha

theorem timeCanon_getLast?_false (s : String) (c : Char)
    (h : (timeCanon s).getLast? = some c) : pyWhitespace c = false := by
  rw [← List.head?_reverse] at h
  unfold timeCanon at h
  rw [← List.filter_reverse] at h
  cases hsl : (stripList s.toList).reverse with
  | nil => rw [hsl] at h; simp at h
  | cons a t =>
    have ha : pyWhitespace a = false := by
      apply stripList_getLast?_false s.toList
      rw [← List.head?_reverse, hsl]
      rfl
    rw [hsl, List.filter_cons_of_pos (by simpa using space_is_pyWhitespace a ha)] at h
    have hac : a = c := by simpa using h
    subst hac
    exact ha

theorem timeCanon_ne_nil (s : String) (h : stripList s.toList ≠ []) : timeCanon s ≠ [] := by
  unfold timeCanon
  cases hsl : stripList s.toList with
  | nil => exact absurd hsl h
  | cons a t =>
    have ha : pyWhitespace a = false := stripList_head?_false s.toList a (by rw [hsl]; rfl)
    rw [List.filter_cons_of_pos (by simpa using space_is_pyWhitespace a ha)]
    simp

theorem stripList_ne_nil_of_timeCanon (s : String) (h : timeCanon s ≠ []) :
    stripList s.toList ≠ [] := by
  intro he
  apply h
  unfold timeCanon
  rw [he]
  rfl

theorem padHourL_cases (t : List Char) :
    padHourL t = t
    ∨ (padHourL t = '0' :: t ∧ t.contains ':' = true
        ∧ (t.takeWhile (fun c => c ≠ ':')).length = 1) := by
  unfold padHourL
  by_cases h1 : t.contains ':' = true
  · by_cases h2 : (t.takeWhile (fun c => c ≠ ':')).length = 1
    · right
      exact ⟨by rw [if_pos h1, if_pos h2], h1, h2⟩
    · left
      rw [if_pos h1, if_neg h2]
  · left
    rw [if_neg h1]

theorem padHourL_padHourL (t : List Char) : padHourL (padHourL t) = padHourL t := by
  rcases padHourL_cases t with h | ⟨h, h1, h2⟩
  · rw [h, h]
  · rw [h]
    obtain ⟨c, rest, rfl⟩ : ∃ c rest, t = c :: rest := by
      cases t with
      | nil => simp at h2
      | cons c rest => exact ⟨c, rest, rfl⟩
    have hmem : ':' ∈ c :: rest := by simpa using h1
    have hc0 : (('0' : Char) :: c :: rest).contains ':' = true := by
      simp [List.mem_cons.mp hmem]
    have hlen : ((('0' : Char) :: c :: rest).takeWhile (fun c => c ≠ ':')).length
        = (( c :: rest).takeWhile (fun c => c ≠ ':')).length + 1 := by
      rw [List.takeWhile_cons, if_pos (by decide)]
      rfl
    unfold padHourL
    rw [if_pos hc0, if_neg (by rw [hlen, h2]; decide)]

/-- Claim C8: on the whitespace-normalised text (`strip` plus space
removal), whenever a colon is present and the hour segment before the first
colon is a single character, `parse_time` left-pads it with `'0'`; and
`parse_time` is idempotent — applying it to its own non-null output returns
that output unchanged. -/
theorem claim_C8 :
    (∀ s : String, (timeCanon s).contains ':' = true →
      ((timeCanon s).takeWhile (fun c => c ≠ ':')).length = 1 →
      parse_time s = some ('0' :: timeCanon s).asString)
    ∧ (∀ s t : String, parse_time s = some t → parse_time t = some t) := by
  constructor
  · intro s h1 h2
    have htc_ne : timeCanon s ≠ [] := by
      intro he
      rw [he] at h1
      simp at h1
    have hb : stripList s.toList ≠ [] := stripList_ne_nil_of_timeCanon s htc_ne
    unfold parse_time
    rw [if_neg hb]
    unfold padHourL
    rw [if_pos h1, if_pos h2]
  · intro s t h
    by_cases hb : stripList s.toList = []
    · unfold parse_time at h
      rw [if_pos hb] at h
      exact absurd h (by simp)
    · unfold parse_time at h
      rw [if_neg hb] at h
      have ht : t = (padHourL (timeCanon s)).asString := (Option.some.inj h).symm
      have htl : t.toList = padHourL (timeCanon s) := by rw [ht]; rfl
      have htc_ne : timeCanon s ≠ [] := timeCanon_ne_nil s hb
      have hu_ne : padHourL (timeCanon s) ≠ [] := by
        rcases padHourL_cases (timeCanon s) with hcase | ⟨hcase, _, _⟩
        · rw [hcase]; exact htc_ne
        · rw [hcase]; simp
      have hu_nospace : ∀ c ∈ padHourL (timeCanon s), c ≠ ' ' := by
        rcases padHourL_cases (timeCanon s) with hcase | ⟨hcase, _, _⟩
        · rw [hcase]; exact timeCanon_no_space s
        · rw [hcase]
          intro c hc
          rcases List.mem_cons.mp hc with rfl | hc'
          · decide
          · exact timeCanon_no_space s c hc'
      have hu_head : ∀ c, (padHourL (timeCanon s)).head? = some c → pyWhitespace c = false := by
        rcases padHourL_cases (timeCanon s) with hcase | ⟨hcase, _, _⟩
        · rw [hcase]; exact timeCanon_head?_false s
        · rw [hcase]
          intro c hc
          have : '0' = c := by simpa using hc
          subst this
          decide
      have hu_last : ∀ c, (padHourL (timeCanon s)).getLast? = some c → pyWhitespace c = false := by
        rcases padHourL_cases (timeCanon s) with hcase | ⟨hcase, _, hlen⟩
        · rw [hcase]; exact timeCanon_getLast?_false s
        · rw [hcase]
          have htc_ne' : timeCanon s ≠ [] := htc_ne
          rw [getLast?_cons_of_ne_nil '0' (timeCanon s) htc_ne']
          exact timeCanon_getLast?_false s
      have hstrip : stripList t.toList = padHourL (timeCanon s) := by
        rw [htl]
        exact stripList_eq_self _ hu_head hu_last
      have hstrip_ne : stripList t.toList ≠ [] := by rw [hstrip]; exact hu_ne
      have hcanon : timeCanon t = padHourL (timeCanon s) := by
        unfold timeCanon
        rw [hstrip]
        exact List.filter_eq_self.mpr (fun a ha => by simpa using hu_nospace a ha)
      unfold parse_time
      rw [if_neg hstrip_ne, hcanon, padHourL_padHourL, ← htl, String.asString_toList, ht]

/-- Witness for C8 at concrete inputs: `"6:48"` is padded to `"06:48"`, and
re-normalising the output `"06:48"` of `parse_time " 6:48"` leaves it
unchanged. -/
theorem claim_C8_witness :
    parse_time "6:48" = some ('0' :: timeCanon "6:48").asString
    ∧ parse_time "06:48" = some "06:48" :=
  ⟨claim_C8.1 "6:48" (by decide) (by decide), claim_C8.2 " 6:48" "06:48" (by decide)⟩

/-- Claim C9, counterexample: the malformed, non-blank input `"b:cd"` does
NOT pass through unchanged — the single-character (non-numeric) hour segment
is still zero-padded, so the output is `"0b:cd"`. -/
theorem claim_C9_counterexample :
    parse_time "b:cd" = some "0b:cd"
    ∧ ("0b:cd" : String) ≠ "b:cd"
    ∧ stripList ("b:cd" : String).toList ≠ [] := by
  refine ⟨by decide, by decide, by decide⟩

/-- Claim C9 as amended: `parse_time` returns null exactly on empty or
blank (whitespace-only) input, and performs no range or format validation —
a non-blank input is never rejected and never raises; it is returned after
only whitespace stripping, space removal and hour zero-padding, and any
non-blank input with no whitespace characters and no single-character hour
segment (malformed or not) passes through unchanged. -/
theorem claim_C9_amended :
    (∀ s : String, parse_time s = none ↔ stripList s.toList = [])
    ∧ (∀ s : String, s ≠ "" → (∀ c ∈ s.toList, pyWhitespace c = false) →
      ¬(s.toList.contains ':' = true
        ∧ (s.toList.takeWhile (fun c => c ≠ ':')).length = 1) →
      parse_time s = some s) := by
  constructor
  · intro s
    unfold parse_time
    by_cases hb : stripList s.toList = []
    · simp [hb]
    · simp [hb]
  · intro s hne hws hpad
    have hl_ne : s.toList ≠ [] := by
      intro he
      apply hne
      rw [← String.asString_toList s, he]
      rfl
    have hstrip : stripList s.toList = s.toList := by
      apply stripList_eq_self
      · intro c hc
        cases hl : s.toList with
        | nil => exact absurd hl hl_ne
        | cons a t =>
          rw [hl] at hc
          have : a = c := by simpa using hc
          subst this
          exact hws a (by rw [hl]; exact List.mem_cons_self a t)
      · intro c hc
        exact hws c (mem_of_getLast?_eq _ _ hc)
    have hcanon : timeCanon s = s.toList := by
      unfold timeCanon
      rw [hstrip]
      exact List.filter_eq_self.mpr
        (fun a ha => by simpa using space_is_pyWhitespace a (hws a ha))
    have hpadid : padHourL s.toList = s.toList := by
      unfold padHourL
      by_cases h1 : s.toList.contains ':' = true
      · have h2 : ¬ (s.toList.takeWhile (fun c => c ≠ ':')).length = 1 :=
          fun h2 => hpad ⟨h1, h2⟩
        rw [if_pos h1, if_neg h2]
      · rw [if_neg h1]
    unfold parse_time
    rw [if_neg (by rw [hstrip]; exact hl_ne), hcanon, hpadid, String.asString_toList]

/-- Witness for C9 at concrete inputs: blank input `" "` yields null, and
the colon-free malformed input `"ab"` passes through unchanged. -/
theorem claim_C9_witness :
    parse_time " " = none ∧ parse_time "ab" = some "ab" :=
  ⟨(claim_C9_amended.1 " ").mpr (by decide),
    claim_C9_amended.2 "ab" (by decide) (by decide) (by decide)⟩

theorem find?_map_update_self : ∀ (m : List (String × Nat)) (k : String) (v : Nat),
    m.any (fun p => p.1 == k) = true →
    (m.map (fun p => if p.1 == k then (k, v) else p)).find? (fun p => p.1 == k) = some (k, v)
  | [], k, v, h => by simp at h
  | p :: t, k, v, h => by
    by_cases hp : p.1 = k
    · rw [List.map_cons, if_pos (by simpa using hp)]
      exact List.find?_cons_of_pos _ (by simp)
    · have hb : (p.1 == k) = false := beq_eq_false_iff_ne.mpr hp
      rw [List.any_cons, hb, Bool.false_or] at h
      rw [List.map_cons, if_neg (by simp [hb])]
      rw [List.find?_cons_of_neg _ (by simp [hb])]
      exact find?_map_update_self t k v h

theorem find?_map_update_ne : ∀ (m : List (String × Nat)) (q k : String) (v : Nat), q ≠ k →
    (m.map (fun p => if p.1 == q then (q, v) else p)).find? (fun p => p.1 == k)
      = m.find? (fun p => p.1 == k)
  | [], q, k, v, h => by simp
  | p :: t, q, k, v, h => by
    by_cases hp : p.1 = q
    · rw [List.map_cons, if_pos (by simpa using hp)]
      have h1 : ((q, v).1 == k) = false := beq_eq_false_iff_ne.mpr h
      have h2 : (p.1 == k) = false := beq_eq_false_iff_ne.mpr (by rw [hp]; exact h)
      rw [List.find?_cons_of_neg _ (by simp [h1]), List.find?_cons_of_neg _ (by simp [h2])]
      exact find?_map_update_ne t q k v h
    · rw [List.map_cons, if_neg (by simp [beq_eq_false_iff_ne.mpr hp])]
      by_cases hk : p.1 = k
      · rw [List.find?_cons_of_pos _ (by simpa using hk),
          List.find?_cons_of_pos _ (by simpa using hk)]
      · rw [List.find?_cons_of_neg _ (by simp [beq_eq_false_iff_ne.mpr hk]),
          List.find?_cons_of_neg _ (by simp [beq_eq_false_iff_ne.mpr hk])]
        exact find?_map_update_ne t q k v h

theorem dictGet_dictInsert_self (m : List (String × Nat)) (k : String) (v : Nat) :
    dictGet (dictInsert m k v) k = some v := by
  unfold dictInsert dictGet
  by_cases h : m.any (fun p => p.1 == k) = true
  · rw [if_pos h, find?_map_update_self m k v h]
    rfl
  · rw [if_neg h, List.find?_append]
    have hnone : m.find? (fun p => p.1 == k) = none := by
      apply List.find?_eq_none.mpr
      intro x hx hcontra
      exact h (List.any_eq_true.mpr ⟨x, hx, hcontra⟩)
    rw [hnone]
    simp

theorem dictGet_dictInsert_ne (m : List (String × Nat)) (q k : String) (v : Nat)
    (h : q ≠ k) : dictGet (dictInsert m q v) k = dictGet m k := by
  unfold dictInsert dictGet
  by_cases hq : m.any (fun p => p.1 == q) = true
  · rw [if_pos hq, find?_map_update_ne m q k v h]
  · rw [if_neg hq, List.find?_append]
    have hlast : List.find? (fun p => p.1 == k) [(q, v)] = none := by
      simp [beq_eq_false_iff_ne.mpr h]
    rw [hlast]
    cases m.find? (fun p => p.1 == k) <;> rfl

theorem dictGet_colMapFrom : ∀ (hs : List String) (n : Nat) (m : List (String × Nat))
    (k : String), k ≠ "" →
    dictGet (colMapFrom n hs m) k = lastIdxFrom n hs (dictGet m k) k
  | [], n, m, k, hk => rfl
  | h :: t, n, m, k, hk => by
    unfold colMapFrom lastIdxFrom
    by_cases hh : h = k
    · rw [if_pos hh]
      have hne : h ≠ "" := by rw [hh]; exact hk
      rw [if_pos hne]
      rw [dictGet_colMapFrom t (n + 1) (dictInsert m h n) k hk]
      rw [hh, dictGet_dictInsert_self m k n]
    · rw [if_neg hh]
      by_cases hh0 : h = ""
      · rw [if_neg (by simp [hh0])]
        exact dictGet_colMapFrom t (n + 1) m k hk
      · rw [if_pos hh0]
        rw [dictGet_colMapFrom t (n + 1) (dictInsert m h n) k hk,
          dictGet_dictInsert_ne m h k n hh]

theorem lastIdxFrom_of_not_mem : ∀ (hs : List String) (n : Nat) (acc : Option Nat)
    (k : String), k ∉ hs → lastIdxFrom n hs acc k = acc
  | [], n, acc, k, h => rfl
  | h :: t, n, acc, k, hm => by
    unfold lastIdxFrom
    rw [if_neg (fun he => hm (by rw [← he]; exact List.mem_cons_self h t))]
    exact lastIdxFrom_of_not_mem t (n + 1) acc k (fun hmem => hm (List.mem_cons_of_mem h hmem))

theorem mem_of_getElem?_some (l : List String) (j : Nat) (a : String)
    (h : l[j]? = some a) : a ∈ l := by
  rcases List.getElem?_eq_some.mp h with ⟨hj, he⟩
  rw [← he]
  exact List.getElem_mem hj

theorem lastIdxFrom_spec : ∀ (hs : List String) (k : String), k ∈ hs →
    ∀ (n : Nat) (acc : Option Nat),
    ∃ j, lastIdxFrom n hs acc k = some (n + j) ∧ hs[j]? = some k
      ∧ ∀ j', j < j' → hs[j']? ≠ some k
  | [], k, h => absurd h (List.not_mem_nil k)
  | h :: t, k, hmem => fun n acc => by
    by_cases hkt : k ∈ t
    · obtain ⟨j, hj1, hj2, hj3⟩ :=
        lastIdxFrom_spec t k hkt (n + 1) (if h = k then some n else acc)
      refine ⟨j + 1, ?_, ?_, ?_⟩
      · unfold lastIdxFrom
        rw [hj1]
        congr 1
        omega
      · simpa using hj2
      · intro j' hj'
        cases j' with
        | zero => omega
        | succ j'' =>
          simp only [List.getElem?_cons_succ]
          exact hj3 j'' (by omega)
    · have hhk : h = k := by
        rcases List.mem_cons.mp hmem with h' | h'
        · exact h'.symm
        · exact absurd h' hkt
      refine ⟨0, ?_, by simp [hhk], ?_⟩
      · unfold lastIdxFrom
        rw [if_pos hhk, lastIdxFrom_of_not_mem t (n + 1) (some n) k hkt]
        simp
      · intro j' hj'
        cases j' with
        | zero => omega
        | succ j'' =>
          simp only [List.getElem?_cons_succ]
          intro hc
          exact hkt (mem_of_getElem?_some t j'' k hc)

theorem findHeaderIdxFrom_spec : ∀ (rows : List (List String)) (n i : Nat),
    findHeaderIdxFrom n rows = some i →
    ∃ j, i = n + j ∧ j < rows.length ∧ isHeaderRow (rows.getD j []) = true
      ∧ ∀ j', j' < j → isHeaderRow (rows.getD j' []) = false
  | [], n, i, h => by simp [findHeaderIdxFrom] at h
  | row :: rest, n, i, h => by
    unfold findHeaderIdxFrom at h
    by_cases hr : isHeaderRow row = true
    · rw [if_pos hr] at h
      have hn : n = i := by simpa using h
      exact ⟨0, by omega, by simp, by simpa using hr, fun j' hj' => by omega⟩
    · rw [if_neg hr] at h
      obtain ⟨j, hj1, hj2, hj3, hj4⟩ := findHeaderIdxFrom_spec rest (n + 1) i h
      refine ⟨j + 1, by omega, by simp; omega, by simpa using hj3, ?_⟩
      intro j' hj'
      cases j' with
      | zero =>
        simpa using Bool.not_eq_true _ ▸ hr
      | succ j'' =>
        simpa using hj4 j'' (by omega)

theorem findHeaderIdxFrom_ne_none : ∀ (rows : List (List String)) (r : List String)
    (n : Nat), r ∈ rows → isHeaderRow r = true → findHeaderIdxFrom n rows ≠ none
  | [], r, n, hm, _ => absurd hm (List.not_mem_nil r)
  | row :: rest, r, n, hm, hr => by
    unfold findHeaderIdxFrom
    by_cases hrow : isHeaderRow row = true
    · rw [if_pos hrow]
      simp
    · rw [if_neg hrow]
      rcases List.mem_cons.mp hm with h' | h'
      · exact absurd (h' ▸ hr) hrow
      · exact findHeaderIdxFrom_ne_none rest r (n + 1) h' hr

/-- Claim C2, counterexample: in a table whose first row is exactly
`["Date", "Wake Time"]` (it contains both required labels) and whose second
row also contains them, detection does NOT pick the earliest such row — the
loop additionally requires more than 2 cells, so it selects index 1. -/
theorem claim_C2_counterexample :
    findHeaderIdx [["Date", "Wake Time"], ["Date", "Wake Time", "x"]] = some 1
    ∧ "Date" ∈ (["Date", "Wake Time"] : List String)
    ∧ "Wake Time" ∈ (["Date", "Wake Time"] : List String) := by
  refine ⟨by decide, by decide, by decide⟩

/-- Claim C2 as amended: header detection selects the first row, scanning
top-down, that has MORE THAN 2 cells and contains both literal values
`"Date"` and `"Wake Time"`; detection succeeds whenever such a row exists;
and the ColumnIndex built from the header row by the linear scan maps every
non-empty label to the position of its last occurrence (duplicates: last
wins), empty header cells being skipped. -/
theorem claim_C2_amended :
    (∀ (rows : List (List String)) (i : Nat), findHeaderIdx rows = some i →
      i < rows.length ∧ isHeaderRow (rows.getD i []) = true
        ∧ ∀ j, j < i → isHeaderRow (rows.getD j []) = false)
    ∧ (∀ (rows : List (List String)) (r : List String), r ∈ rows →
        isHeaderRow r = true → findHeaderIdx rows ≠ none)
    ∧ (∀ (headers : List String) (k : String), k ≠ "" →
        dictGet (buildColMap headers) k = lastIdxOf headers k)
    ∧ (∀ (headers : List String) (k : String) (i : Nat), lastIdxOf headers k = some i →
        headers[i]? = some k ∧ ∀ j, i < j → headers[j]? ≠ some k)
    ∧ (∀ (headers : List String) (k : String), k ∈ headers → lastIdxOf headers k ≠ none) := by
  refine ⟨?_, ?_, ?_, ?_, ?_⟩
  · intro rows i h
    obtain ⟨j, hj1, hj2, hj3, hj4⟩ := findHeaderIdxFrom_spec rows 0 i h
    have hij : i = j := by omega
    subst hij
    exact ⟨hj2, hj3, hj4⟩
  · intro rows r hm hr
    exact findHeaderIdxFrom_ne_none rows r 0 hm hr
  · intro headers k hk
    have h := dictGet_colMapFrom headers 0 [] k hk
    unfold buildColMap lastIdxOf
    rw [h]
    rfl
  · intro headers k i h
    by_cases hm : k ∈ headers
    · obtain ⟨j, hj1, hj2, hj3⟩ := lastIdxFrom_spec headers k hm 0 none
      unfold lastIdxOf at h
      rw [hj1] at h
      have hij : i = j := by
        have := Option.some.inj h
        omega
      subst hij
      exact ⟨hj2, fun j' hj' => hj3 j' hj'⟩
    · unfold lastIdxOf at h
      rw [lastIdxFrom_of_not_mem headers 0 none k hm] at h
      exact absurd h (by simp)
  · intro headers k hm
    obtain ⟨j, hj1, _, _⟩ := lastIdxFrom_spec headers k hm 0 none
    unfold lastIdxOf
    rw [hj1]
    simp

/-- Witness for C2 at concrete inputs: detection picks index 1 in a table
whose qualifying row is second, and with a duplicated `"Date"` header the
ColumnIndex resolves `"Date"` to its last occurrence, position 2. -/
theorem claim_C2_witness :
    (1 < ([[""], ["Date", "Wake Time", "x"]] : List (List String)).length)
    ∧ dictGet (buildColMap ["Date", "x", "Date", "Wake Time"]) "Date"
        = lastIdxOf ["Date", "x", "Date", "Wake Time"] "Date"
    ∧ (["Date", "x", "Date", "Wake Time"] : List String)[2]? = some "Date" :=
  ⟨(claim_C2_amended.1 [[""], ["Date", "Wake Time", "x"]] 1 (by decide)).1,
    claim_C2_amended.2.2.1 ["Date", "x", "Date", "Wake Time"] "Date" (by decide),
    (claim_C2_amended.2.2.2.1 ["Date", "x", "Date", "Wake Time"] "Date" 2 (by decide)).1⟩

theorem buildData_keys (cm : List (String × Nat)) (row : List String) :
    (buildData cm row).map Prod.fst = KEYS := rfl

theorem processRow_ok_some (cm : List (String × Nat)) (row : List String)
    (d : String) (rec : List (String × Value))
    (h : processRow cm row = Except.ok (some (d, rec))) : rec = buildData cm row := by
  simp only [processRow] at h
  split at h
  · simp at h
  · split at h
    · split at h
      · simp at h
      · split at h
        · simp at h
          exact h.2.symm
        · simp at h
    · simp at h

theorem processRows_keys : ∀ (cm : List (String × Nat)) (rs : List (List String))
    (out : List OutRow), processRows cm rs = Except.ok out →
    ∀ r ∈ out, r.data.map Prod.fst = KEYS
  | cm, [], out, h => by
    have hout : out = [] := by simpa using (Except.ok.inj h).symm
    subst hout
    intro r hr
    simp at hr
  | cm, row :: rest, out, h => by
    unfold processRows at h
    cases hpr : processRow cm row with
    | error e => rw [hpr] at h; simp at h
    | ok o =>
      cases o with
      | none =>
        rw [hpr] at h
        exact processRows_keys cm rest out h
      | some pr =>
        obtain ⟨date, rec⟩ := pr
        rw [hpr] at h
        cases hrr : processRows cm rest with
        | error e => rw [hrr] at h; simp at h
        | ok out' =>
          rw [hrr] at h
          have hout : out = { user_id := USER_ID, date := date, data := rec } :: out' := by
            simpa using (Except.ok.inj h).symm
          subst hout
          intro r hr
          rcases List.mem_cons.mp hr with rfl | hr'
          · show rec.map Prod.fst = KEYS
            rw [processRow_ok_some cm row date rec hpr]
            exact buildData_keys cm row
          · exact processRows_keys cm rest out' hrr r hr'

/-- Claim C1, counterexample: on a concrete input the `data` record of the
emitted row carries 15 keys — including `jiuJitsuSessions`, which the
claim's 14-key list omits (and the claim even announces "13") — so the
claimed key set is wrong. -/
theorem claim_C1_counterexample :
    convert C1exRows = Except.ok [C1exOut]
    ∧ C1exOut.data.map Prod.fst = KEYS
    ∧ KEYS ≠ C1claimKeys
    ∧ "jiuJitsuSessions" ∈ KEYS
    ∧ "jiuJitsuSessions" ∉ C1claimKeys := by
  refine ⟨by rfl, by decide, by decide, by decide, by decide⟩

/-- Claim C1 as amended: for every run of the conversion that produces
output, the `data` record of every output row has exactly the 15 fixed keys
hrv, calories, deepWork, recovery, sleepTime, coldShower, noDopamine,
sleepHours, wakingTime, dailyWeight, waterIntake, readingHours,
proteinIntake, jiuJitsuSessions, weightliftingSessions — no other keys, and
structurally in that order for every row. -/
theorem claim_C1_amended : ∀ (rows : List (List String)) (out : List OutRow),
    convert rows = Except.ok out → ∀ r ∈ out, r.data.map Prod.fst = KEYS := by
  intro rows out h r hr
  unfold convert at h
  cases hf : findHeaderIdx rows with
  | none => rw [hf] at h; simp at h
  | some hi =>
    rw [hf] at h
    exact processRows_keys _ _ out h r hr

/-- Witness for C1 at a concrete input: the one row converted from
`C1exRows` carries exactly the 15 keys in order. -/
theorem claim_C1_witness : C1exOut.data.map Prod.fst = KEYS :=
  claim_C1_amended C1exRows [C1exOut] (by rfl) C1exOut (by simp)

/-- Claim C4, counterexample: with `Date` at position 0, a row whose second
cell is the blank (whitespace-only, non-empty) text `" "` is NOT excluded —
the source only tests `not row[1]`, which is false for `" "` — so the row is
converted, refuting "second cell empty or blank excludes the row". -/
theorem claim_C4_counterexample :
    processRow (buildColMap ["Date", "x", "Wake Time"]) ["Mon, Apr 21", " ", "hello"]
      = Except.ok (some ("2025-04-21",
          buildData (buildColMap ["Date", "x", "Wake Time"]) ["Mon, Apr 21", " ", "hello"]))
    ∧ stripList (" " : String).toList = []
    ∧ (" " : String) ≠ "" := by
  refine ⟨by rfl, by decide, by decide⟩

/-- Claim C4 as amended: provided the row's processing does not raise (the
date-cell access is in range), a row after the header is excluded if and
only if it has fewer than 2 cells, or its second cell is the EMPTY STRING
(a whitespace-only second cell does not exclude), or its first cell is
`"BREAK"` or `"NIGHTMARE"`, or its second cell is `"AVG OR SUM"`, or its
date cell fails to parse, or every cell from position 2 onward is empty or
whitespace-only. -/
theorem claim_C4_amended : ∀ (cm : List (String × Nat)) (row : List String),
    (∀ e, processRow cm row ≠ Except.error e) →
    (processRow cm row = Except.ok none ↔
      (row.length < 2 ∨ row.getD 1 "" = "" ∨ row.getD 0 "" = "BREAK"
        ∨ row.getD 0 "" = "NIGHTMARE" ∨ row.getD 1 "" = "AVG OR SUM"
        ∨ parse_date (row.getD ((dictGet cm "Date").getD 1) "") = none
        ∨ hasData row = false)) := by
  intro cm row hno
  simp only [processRow] at hno ⊢
  by_cases h1 : row.length < 2 ∨ row.getD 1 "" = "" ∨ row.getD 0 "" = "BREAK"
      ∨ row.getD 0 "" = "NIGHTMARE" ∨ row.getD 1 "" = "AVG OR SUM"
  · rw [if_pos h1]
    constructor
    · intro _
      tauto
    · intro _
      rfl
  · rw [if_neg h1]
    by_cases h2 : (dictGet cm "Date").getD 1 < row.length
    · rw [if_pos h2]
      cases hpd : parse_date (row.getD ((dictGet cm "Date").getD 1) "") with
      | none =>
        constructor
        · intro _
          tauto
        · intro _
          rfl
      | some date =>
        by_cases h3 : hasData row = true
        · rw [h3]
          constructor
          · intro hcontra
            simp at hcontra
          · intro hdisj
            exfalso
            rcases hdisj with h | h | h | h | h | h | h
            · exact h1 (Or.inl h)
            · exact h1 (Or.inr (Or.inl h))
            · exact h1 (Or.inr (Or.inr (Or.inl h)))
            · exact h1 (Or.inr (Or.inr (Or.inr (Or.inl h))))
            · exact h1 (Or.inr (Or.inr (Or.inr (Or.inr h))))
            · exact Option.noConfusion h
            · exact Bool.noConfusion h
        · have h3' : hasData row = false := Bool.not_eq_true _ ▸ h3
          rw [h3']
          simp only [Bool.false_eq_true, if_false]
          constructor
          · intro _
            tauto
          · intro _
            trivial
    · exfalso
      apply hno "IndexError"
      rw [if_neg h1, if_neg h2]

/-- Witness for C4 at a concrete input: a `"BREAK"` row is excluded, and the
exclusion condition holds for it. -/
theorem claim_C4_witness :
    processRow (buildColMap ["Date", "Wake Time", "HRV"]) ["BREAK", "x", "1"]
        = Except.ok none
      ↔ ((["BREAK", "x", "1"] : List String).length < 2
        ∨ (["BREAK", "x", "1"] : List String).getD 1 "" = ""
        ∨ (["BREAK", "x", "1"] : List String).getD 0 "" = "BREAK"
        ∨ (["BREAK", "x", "1"] : List String).getD 0 "" = "NIGHTMARE"
        ∨ (["BREAK", "x", "1"] : List String).getD 1 "" = "AVG OR SUM"
        ∨ parse_date ((["BREAK", "x", "1"] : List String).getD
            ((dictGet (buildColMap ["Date", "Wake Time", "HRV"]) "Date").getD 1) "") = none
        ∨ hasData ["BREAK", "x", "1"] = false) :=
  claim_C4_amended (buildColMap ["Date", "Wake Time", "HRV"]) ["BREAK", "x", "1"]
    (fun e h => by
      rw [show processRow (buildColMap ["Date", "Wake Time", "HRV"]) ["BREAK", "x", "1"]
          = Except.ok none from rfl] at h
      exact Except.noConfusion h)

/-- Claim C7: if no row of the source table contains both required markers
`"Date"` and `"Wake Time"`, the conversion fails with the header-not-found
diagnostic and returns before any output is produced. -/
theorem claim_C7 : ∀ rows : List (List String),
    (∀ row ∈ rows, ¬("Date" ∈ row ∧ "Wake Time" ∈ row)) →
    convert rows = Except.error "Could not find header row" := by
  intro rows h
  unfold convert
  cases hf : findHeaderIdx rows with
  | none => rfl
  | some hi =>
    exfalso
    obtain ⟨j, _, hj2, hj3, _⟩ := findHeaderIdxFrom_spec rows 0 hi hf
    have hmem : rows.getD j [] ∈ rows := by
      rw [List.getD_eq_getElem rows [] hj2]
      exact List.getElem_mem hj2
    unfold isHeaderRow at hj3
    simp only [Bool.and_eq_true, decide_eq_true_eq] at hj3
    have hdate : "Date" ∈ rows.getD j [] := by
      have := hj3.1.2
      simpa using this
    have hwake : "Wake Time" ∈ rows.getD j [] := by
      have := hj3.2
      simpa using this
    exact h _ hmem ⟨hdate, hwake⟩

/-- Witness for C7 at a concrete input: a table with no marker row makes the
conversion abort with the diagnostic error. -/
theorem claim_C7_witness :
    convert [["a", "b"], ["c"]] = Except.error "Could not find header row" :=
  claim_C7 [["a", "b"], ["c"]] (by decide)
